import Mathlib

/-!
Verification of the FreeLing annotated-document data model
(`src/freeling/inc/freeling/morfo/language.h`).

The repository excerpt contains only the class declarations; every method
body is external to the excerpt.  Following the specification document,
each operation is therefore modelled from the specification's own
description of its behaviour, over a shallow embedding of the declared
data model: `std::list`/`std::vector` become `List`, `std::map` and
`std::multimap` become association lists, `std::set<int>` becomes
`Finset Int`, `std::wstring` becomes `String`, and `double` probability
scores become `ℚ`.
-/

namespace freeling

/-- Modelled from the spec: lookup in a `std::map` (association-list model of
the map used by `sentence::pts`, `sentence::dts`, `parse_tree::node_index`,
`document::node2group`).  Returns the value bound to the first matching key,
or `none` when the key is absent. -/
def mlookup {K V : Type} [DecidableEq K] : List (K × V) → K → Option V
  | [], _ => none
  | p :: r, q => if q = p.1 then some p.2 else mlookup r q

/-- Modelled from the spec: insert-or-replace in a `std::map`
(association-list model).  Replaces the binding of an existing key, or
appends a new binding when the key is absent. -/
def mset {K V : Type} [DecidableEq K] : List (K × V) → K → V → List (K × V)
  | [], q, v => [(q, v)]
  | p :: r, q, v => if q = p.1 then (q, v) :: r else p :: mset r q v

mutual

/-- Modelled from the spec: class `analysis` (a Reading) — one candidate
lemma+tag with probability, sense list, retokenization list and the set
`selected_kbest` of k-best sequence indices that currently select it.
The method bodies are absent from the excerpt; the fields are those
declared in `language.h`. -/
inductive analysis : Type where
  | mk (lem : String) (tag : String) (prob : ℚ)
       (senses : List (String × ℚ)) (retok : List word)
       (selected_kbest : Finset Int) : analysis

/-- Modelled from the spec: class `word` (a Token) — a surface form with its
ordered list of candidate analyses, multiword decomposition, span, dictionary
and lock flags, and its position in the sentence. -/
inductive word : Type where
  | mk (form : String) (lc_form : String) (anas : List analysis)
       (multiword : List word) (start : Nat) (finish : Nat)
       (in_dict : Bool) (locked : Bool) (position : Nat) : word

end

/-- Modelled from the spec: `analysis::get_lemma`. -/
def analysis.get_lemma : analysis → String
  | .mk l _ _ _ _ _ => l

/-- Modelled from the spec: `analysis::get_tag`. -/
def analysis.get_tag : analysis → String
  | .mk _ t _ _ _ _ => t

/-- Modelled from the spec: `analysis::get_prob`. -/
def analysis.get_prob : analysis → ℚ
  | .mk _ _ p _ _ _ => p

/-- Modelled from the spec: `analysis::get_senses`. -/
def analysis.get_senses : analysis → List (String × ℚ)
  | .mk _ _ _ s _ _ => s

/-- Modelled from the spec: `analysis::get_retokenizable`. -/
def analysis.get_retokenizable : analysis → List word
  | .mk _ _ _ _ r _ => r

/-- Modelled from the spec: the `selected_kbest` field of `analysis`. -/
def analysis.selected_kbest : analysis → Finset Int
  | .mk _ _ _ _ _ s => s

/-- Modelled from the spec: `analysis::is_selected(k)` — whether this
reading is selected in the tagger's k-th best sequence. -/
def analysis.is_selected (a : analysis) (k : Int) : Bool :=
  decide (k ∈ a.selected_kbest)

/-- Modelled from the spec: `analysis::mark_selected(k)` — adds k to
`selected_kbest`. -/
def analysis.mark_selected : analysis → Int → analysis
  | .mk l t p s r sel, k => .mk l t p s r (insert k sel)

/-- Modelled from the spec: `analysis::unmark_selected(k)` — removes k from
`selected_kbest`; a no-op when k is not present. -/
def analysis.unmark_selected : analysis → Int → analysis
  | .mk l t p s r sel, k => .mk l t p s r (sel.erase k)

/-- Modelled from the spec: `analysis::operator==` — equality compares
lemma, tag and probability only (senses and retokenization excluded). -/
def analysis.eqv (a b : analysis) : Bool :=
  decide (a.get_lemma = b.get_lemma) && decide (a.get_tag = b.get_tag) &&
    decide (a.get_prob = b.get_prob)

/-- Modelled from the spec: `analysis::operator>` — orders readings by
decreasing probability. -/
def analysis.gtv (a b : analysis) : Bool :=
  decide (b.get_prob < a.get_prob)

/-- Modelled from the spec: the analysis list a `word` holds (class `word`
extends `std::list<analysis>`). -/
def word.anas : word → List analysis
  | .mk _ _ a _ _ _ _ _ _ => a

/-- Modelled from the spec: `word::get_position`. -/
def word.get_position : word → Nat
  | .mk _ _ _ _ _ _ _ _ p => p

/-- Modelled from the spec: `word::set_position`. -/
def word.set_position : word → Nat → word
  | .mk f lf a m s e d lk _, p => .mk f lf a m s e d lk p

/-- Modelled from the spec: `word::get_n_analysis` — number of readings in
the current list. -/
def word.get_n_analysis (w : word) : Nat :=
  w.anas.length

/-- Modelled from the spec: `word::get_n_selected(k)` — counts the readings
selected at k without allocating a view. -/
def word.get_n_selected (w : word) (k : Int) : Nat :=
  w.anas.countP (fun a => a.is_selected k)

/-- Modelled from the spec: `word::get_n_unselected(k)` — counts the
readings not selected at k without allocating a view. -/
def word.get_n_unselected (w : word) (k : Int) : Nat :=
  w.anas.countP (fun a => !a.is_selected k)

/-- Modelled from the spec: decimal rendering of the running counter used by
`parse_tree::build_node_index` to derive fresh node identifiers. -/
def decStr (m : Nat) : String :=
  if m = 0 then "0" else ⟨((Nat.digits 10 m).reverse.map Nat.digitChar)⟩

/-- Modelled from the spec: class `node` — a constituency-tree node with
identifier, label, head flag, chunk ordinal, and (for leaves) the sentence
position of the word it references (the `word*` member). -/
structure node where
  nodeid : String
  label : String
  head : Bool
  chunk : Int
  w : Option Nat
deriving DecidableEq

mutual

/-- Modelled from the spec: the rooted ordered n-ary tree shape
(`tree<node>`) underlying `parse_tree`. -/
inductive ptree : Type where
  | mk (info : node) (children : pforest) : ptree

/-- Modelled from the spec: an ordered list of sibling subtrees of a
`tree<node>`. -/
inductive pforest : Type where
  | nil : pforest
  | cons (t : ptree) (f : pforest) : pforest

end

mutual

/-- Modelled from the spec: the preorder node list of a constituency tree. -/
def nodesT : ptree → List node
  | .mk info ch => info :: nodesF ch

/-- Modelled from the spec: the preorder node list of a sibling forest. -/
def nodesF : pforest → List node
  | .nil => []
  | .cons t f => nodesT t ++ nodesF f

end

mutual

/-- Modelled from the spec: the identifier-assigning walk of
`parse_tree::build_node_index` — each node missing an id (empty string)
receives `pref ++ decStr counter`, with the counter advancing in preorder;
returns the rewritten tree and the final counter. -/
def assignT (pref : String) : ptree → Nat → ptree × Nat
  | .mk info ch, n =>
    let info2 := if info.nodeid = "" then { info with nodeid := pref ++ decStr n } else info
    let n2 := if info.nodeid = "" then n + 1 else n
    let r := assignF pref ch n2
    (.mk info2 r.1, r.2)

/-- Modelled from the spec: the identifier-assigning walk over a sibling
forest. -/
def assignF (pref : String) : pforest → Nat → pforest × Nat
  | .nil, n => (.nil, n)
  | .cons t f, n =>
    let r1 := assignT pref t n
    let r2 := assignF pref f r1.2
    (.cons r1.1 r2.1, r2.2)

end

/-- Modelled from the spec: class `parse_tree` — the tree plus its two
indices: `node_index` (id to node) and `word_index` (leaf word position to
node). -/
structure parse_tree where
  root : ptree
  node_index : List (String × node)
  word_index : List (Nat × node)

/-- Modelled from the spec: `parse_tree::build_node_index(pref)` — walks the
tree once, assigns fresh identifiers to nodes missing one, and populates
both indices. -/
def parse_tree.build_node_index (pref : String) (pt : parse_tree) : parse_tree :=
  let t2 := (assignT pref pt.root 0).1
  { root := t2,
    node_index := (nodesT t2).map (fun nd => (nd.nodeid, nd)),
    word_index := (nodesT t2).filterMap (fun nd => nd.w.map (fun p => (p, nd))) }

/-- Modelled from the spec: `parse_tree::get_node_by_id` — consults the id
index; reports "not found" (`none`) when the id is absent. -/
def parse_tree.get_node_by_id (pt : parse_tree) (id : String) : Option node :=
  mlookup pt.node_index id

/-- Modelled from the spec: `parse_tree::get_node_by_pos` — consults the
leaf word-position index; reports "not found" (`none`) when the position is
absent. -/
def parse_tree.get_node_by_pos (pt : parse_tree) (pos : Nat) : Option node :=
  mlookup pt.word_index pos

/-- Modelled from the spec: class `depnode` — a dependency node extending
`node` with a cross-reference to the corresponding constituency node. -/
structure depnode extends node where
  link : Option node

/-- Modelled from the spec: the rooted tree shape underlying `dep_tree`. -/
inductive dtree : Type where
  | mk (info : depnode) (children : List dtree) : dtree

/-- Modelled from the spec: class `dep_tree` — the tree plus its
word-position index. -/
structure dep_tree where
  root : dtree
  word_index : List (Nat × depnode)

/-- Modelled from the spec: `dep_tree::get_node_by_pos` — consults the
word-position index; reports "not found" (`none`) when the position is
absent. -/
def dep_tree.get_node_by_pos (dt : dep_tree) (pos : Nat) : Option depnode :=
  mlookup dt.word_index pos

/-- Modelled from the spec: class `processor_status` — an opaque per-stage
state object; its contents are opaque, so it is modelled as a tagged
value. -/
structure processor_status where
  tag : Nat
deriving DecidableEq

/-- Modelled from the spec: class `sentence` — an ordered list of words,
the positional index `wpos`, the per-k constituency and dependency tree
maps, and the stack of per-stage processing states. -/
structure sentence where
  sent_id : String
  words : List word
  wpos : List word
  pts : List (Int × parse_tree)
  dts : List (Int × dep_tree)
  status : List processor_status

/-- Modelled from the spec: the positional renumbering performed by
`sentence::rebuild_word_index` — positions are simply `n`, `n+1`, ... in
iteration order. -/
def set_positions : List word → Nat → List word
  | [], _ => []
  | w :: r, n => w.set_position n :: set_positions r (n + 1)

/-- Modelled from the spec: `sentence::rebuild_word_index` — renumbers the
words `0..n-1` in iteration order and rebuilds the positional index
`wpos`. -/
def sentence.rebuild_word_index (S : sentence) : sentence :=
  { S with words := set_positions S.words 0, wpos := set_positions S.words 0 }

/-- Modelled from the spec: `sentence::set_parse_tree(tree, k)` — stores a
constituency tree under hypothesis k, replacing any prior tree at that
k. -/
def sentence.set_parse_tree (S : sentence) (t : parse_tree) (k : Int) : sentence :=
  { S with pts := mset S.pts k t }

/-- Modelled from the spec: `sentence::get_parse_tree(k)` — the
constituency tree stored under hypothesis k, if any. -/
def sentence.get_parse_tree (S : sentence) (k : Int) : Option parse_tree :=
  mlookup S.pts k

/-- Modelled from the spec: `sentence::is_parsed` — whether hypothesis 0
has a constituency tree. -/
def sentence.is_parsed (S : sentence) : Bool :=
  (mlookup S.pts 0).isSome

/-- Modelled from the spec: `sentence::set_dep_tree(tree, k)` — stores a
dependency tree under hypothesis k, replacing any prior tree at that k. -/
def sentence.set_dep_tree (S : sentence) (t : dep_tree) (k : Int) : sentence :=
  { S with dts := mset S.dts k t }

/-- Modelled from the spec: `sentence::get_dep_tree(k)` — the dependency
tree stored under hypothesis k, if any. -/
def sentence.get_dep_tree (S : sentence) (k : Int) : Option dep_tree :=
  mlookup S.dts k

/-- Modelled from the spec: `sentence::is_dep_parsed` — whether hypothesis
0 has a dependency tree. -/
def sentence.is_dep_parsed (S : sentence) : Bool :=
  (mlookup S.dts 0).isSome

/-- Modelled from the spec: `sentence::set_processing_status(s)` — pushes a
per-stage state onto the status stack. -/
def sentence.set_processing_status (S : sentence) (s : processor_status) : sentence :=
  { S with status := s :: S.status }

/-- Modelled from the spec: `sentence::get_processing_status` — peeks the
top of the status stack; `none` when the stack is empty. -/
def sentence.get_processing_status (S : sentence) : Option processor_status :=
  S.status.head?

/-- Modelled from the spec: `sentence::clear_processing_status` — pops the
top of the status stack; leaves an empty stack unchanged. -/
def sentence.clear_processing_status (S : sentence) : sentence :=
  { S with status := S.status.tail }

/-- Modelled from the spec: class `document` — the coreference index
`node2group` (node id to group id; the inverse multimap `group2node` is its
inverse image) and the monotonically increasing group counter
`last_group`. -/
structure document where
  node2group : List (String × Int)
  last_group : Int

/-- Modelled from the spec: `document::get_coref_group` — the group id of a
node, or `none` when the node belongs to no group. -/
def document.get_coref_group (d : document) (n : String) : Option Int :=
  mlookup d.node2group n

/-- Modelled from the spec: `document::get_coref_nodes` — all node ids in a
coreference group id. -/
def document.get_coref_nodes (d : document) (g : Int) : List String :=
  (d.node2group.filter (fun p => p.2 = g)).map (fun p => p.1)

/-- Modelled from the spec: `document::is_coref` — true iff both nodes
resolve to the same existing group. -/
def document.is_coref (d : document) (n1 n2 : String) : Bool :=
  match mlookup d.node2group n1, mlookup d.node2group n2 with
  | some g1, some g2 => decide (g1 = g2)
  | _, _ => false

/-- Modelled from the spec: `document::add_positive(node1, node2)` — places
both node ids in one common group: a fresh group id if neither existed,
the one existing id if exactly one existed, and a merge (keeping node1's
group id and reassigning the other group's members) if both existed in
different groups. -/
def document.add_positive (d : document) (n1 n2 : String) : document :=
  match mlookup d.node2group n1, mlookup d.node2group n2 with
  | none, none =>
    let g := d.last_group + 1
    { node2group := mset (mset d.node2group n1 g) n2 g, last_group := g }
  | some g, none => { d with node2group := mset d.node2group n2 g }
  | none, some g => { d with node2group := mset d.node2group n1 g }
  | some g1, some g2 =>
    if g1 = g2 then d
    else { d with node2group := d.node2group.map (fun p => if p.2 = g2 then (p.1, g1) else p) }

/-- Modelled from the spec: the well-formedness invariant of the document
coreference state — every assigned group id was issued by the counter
`last_group`. -/
def document.Wf (d : document) : Prop :=
  ∀ p ∈ d.node2group, p.2 ≤ d.last_group

/-- Sample reading used by concrete witnesses. -/
def a0 : analysis := .mk "bank" "NCFP000" (7/10) [] [] ∅

/-- Sample word used by concrete witnesses (stale position 5). -/
def w0 : word := .mk "banks" "banks" [a0] [] 0 5 true false 5

/-- Sample word used by concrete witnesses (stale position 9). -/
def w1 : word := .mk "x" "x" [] [] 6 7 false false 9

/-- Sample sentence with two words carrying stale positions. -/
def S1 : sentence := ⟨"s1", [w0, w1], [], [], [], []⟩

/-- Sample empty sentence used by concrete witnesses. -/
def S0 : sentence := ⟨"", [], [], [], [], []⟩

/-- Sample constituency node with no identifier assigned yet. -/
def nd0 : node := ⟨"", "S", false, 0, none⟩

/-- Sample two-node constituency tree with no identifiers assigned yet. -/
def pt1 : parse_tree := ⟨.mk nd0 (.cons (.mk nd0 .nil) .nil), [], []⟩

/-- Sample single-node constituency tree with empty indices. -/
def pt0 : parse_tree := ⟨.mk nd0 .nil, [], []⟩

/-- Sample dependency node used by concrete witnesses. -/
def dn0 : depnode := ⟨nd0, none⟩

/-- Sample single-node dependency tree with an empty index. -/
def dt0 : dep_tree := ⟨.mk dn0 [], []⟩

/-- Sample empty document used by concrete witnesses. -/
def d0 : document := ⟨[], 0⟩

/-! ### Association-map lemmas -/

theorem mlookup_mset_self {K V : Type} [DecidableEq K] (m : List (K × V)) (k : K) (v : V) :
    mlookup (mset m k v) k = some v := by
  induction m with
  | nil => simp [mlookup, mset]
  | cons p r ih =>
    by_cases h : k = p.1 <;> simp [mlookup, mset, h, ih]

theorem mlookup_mset_ne {K V : Type} [DecidableEq K] (m : List (K × V)) (k q : K) (v : V)
    (h : q ≠ k) : mlookup (mset m k v) q = mlookup m q := by
  induction m with
  | nil => simp [mlookup, mset, h]
  | cons p r ih =>
    by_cases hk : k = p.1
    · subst hk
      simp [mlookup, mset, h]
    · by_cases hq : q = p.1 <;> simp [mlookup, mset, hk, hq, ih]

theorem mlookup_eq_none {K V : Type} [DecidableEq K] (m : List (K × V)) (q : K)
    (h : ∀ p ∈ m, p.1 ≠ q) : mlookup m q = none := by
  induction m with
  | nil => rfl
  | cons p r ih =>
    have hp : p.1 ≠ q := h p (by simp)
    have hq : ¬ q = p.1 := fun e => hp e.symm
    simp only [mlookup, if_neg hq]
    exact ih (fun x hx => h x (List.mem_cons_of_mem _ hx))

theorem mset_absent {K V : Type} [DecidableEq K] (m : List (K × V)) (k : K) (v : V)
    (h : mlookup m k = none) : mset m k v = m ++ [(k, v)] := by
  induction m with
  | nil => rfl
  | cons p r ih =>
    by_cases hk : k = p.1
    · simp [mlookup, hk] at h
    · simp [mlookup, hk] at h
      simp [mset, hk, ih h]

theorem mlookup_append {K V : Type} [DecidableEq K] (m1 m2 : List (K × V)) (q : K) :
    mlookup (m1 ++ m2) q =
      match mlookup m1 q with
      | some v => some v
      | none => mlookup m2 q := by
  induction m1 with
  | nil => simp [mlookup]
  | cons p r ih =>
    by_cases hq : q = p.1 <;> simp [mlookup, hq, ih]

theorem mlookup_mem {K V : Type} [DecidableEq K] (m : List (K × V)) (q : K) (v : V)
    (h : mlookup m q = some v) : (q, v) ∈ m := by
  induction m with
  | nil => simp [mlookup] at h
  | cons p r ih =>
    by_cases hq : q = p.1
    · simp only [mlookup, if_pos hq] at h
      injection h with h2
      subst hq
      rw [← h2]
      simp
    · simp only [mlookup, if_neg hq] at h
      exact List.mem_cons_of_mem _ (ih h)

theorem mlookup_map_reassign (m : List (String × Int)) (g1 g2 : Int) (q : String) :
    mlookup (m.map (fun p => if p.2 = g2 then (p.1, g1) else p)) q
      = (mlookup m q).map (fun g => if g = g2 then g1 else g) := by
  induction m with
  | nil => simp [mlookup]
  | cons p r ih =>
    by_cases hg : p.2 = g2 <;> by_cases hq : q = p.1 <;>
      simp [mlookup, hg, hq, ih]

/-! ### C3: selected plus unselected partitions the reading list -/

theorem countP_add_countP_not {α : Type} (p : α → Bool) (l : List α) :
    l.countP p + l.countP (fun a => !p a) = l.length := by
  induction l with
  | nil => simp
  | cons x r ih =>
    by_cases h : p x <;> simp [List.countP_cons, h, ← ih] <;> omega

/-- C3: for every Token w and every k, `get_n_selected(k) + get_n_unselected(k)
== get_n_analysis()` — the selected-at-k and unselected-at-k views partition
the full reading list. -/
theorem selected_unselected_partition (w : word) (k : Int) :
    w.get_n_selected k + w.get_n_unselected k = w.get_n_analysis := by
  simpa [word.get_n_selected, word.get_n_unselected, word.get_n_analysis]
    using countP_add_countP_not (fun a => a.is_selected k) w.anas

/-! ### C4: mark/unmark selection behaviour -/

/-- C4: for every Reading and every k, `mark_selected(k)` makes
`is_selected(k)` true, a subsequent `unmark_selected(k)` makes it false,
both operations are idempotent under repetition, and `unmark_selected` on a
k that is not present is a no-op. -/
theorem mark_unmark_selected_spec (a : analysis) (k : Int) :
    (a.mark_selected k).is_selected k = true ∧
    ((a.mark_selected k).unmark_selected k).is_selected k = false ∧
    (a.mark_selected k).mark_selected k = a.mark_selected k ∧
    (a.unmark_selected k).unmark_selected k = a.unmark_selected k ∧
    (a.is_selected k = false → a.unmark_selected k = a) := by
  cases a with
  | mk l t p s r sel =>
    refine ⟨?_, ?_, ?_, ?_, ?_⟩
    · simp [analysis.is_selected, analysis.mark_selected, analysis.selected_kbest]
    · simp [analysis.is_selected, analysis.mark_selected, analysis.unmark_selected,
        analysis.selected_kbest]
    · simp [analysis.mark_selected, Finset.insert_idem]
    · simp [analysis.unmark_selected, Finset.erase_idem]
    · intro h
      simp [analysis.is_selected, analysis.selected_kbest] at h
      simp [analysis.unmark_selected, Finset.erase_eq_of_not_mem h]

theorem mark_unmark_selected_spec_witness :
    (a0.mark_selected 2).is_selected 2 = true ∧
    ((a0.mark_selected 2).unmark_selected 2).is_selected 2 = false ∧
    (a0.mark_selected 2).mark_selected 2 = a0.mark_selected 2 ∧
    (a0.unmark_selected 2).unmark_selected 2 = a0.unmark_selected 2 ∧
    (a0.is_selected 2 = false → a0.unmark_selected 2 = a0) :=
  mark_unmark_selected_spec a0 2

/-! ### C9: the processing-status stack is LIFO -/

/-- C9: for every Sentence, `set_processing_status` pushes,
`get_processing_status` peeks the most recently pushed status, and
`clear_processing_status` removes exactly that top status, re-exposing the
one pushed before it. -/
theorem processing_status_lifo (S : sentence) (s : processor_status) :
    (S.set_processing_status s).get_processing_status = some s ∧
    (S.set_processing_status s).clear_processing_status = S ∧
    ((S.set_processing_status s).clear_processing_status).get_processing_status
      = S.get_processing_status := by
  refine ⟨rfl, ?_, rfl⟩
  cases S
  simp [sentence.set_processing_status, sentence.clear_processing_status]

/-! ### C7: is_parsed / is_dep_parsed report hypothesis 0 -/

/-- C7: for every Sentence, `is_parsed()` is true iff a constituency tree is
stored under hypothesis k=0, `is_dep_parsed()` is true iff a dependency tree
is stored under k=0, and `set_parse_tree`/`set_dep_tree` at k make the
corresponding flag true exactly when k = 0 or it was already true. -/
theorem is_parsed_spec :
    (∀ S : sentence, S.is_parsed = true ↔ ∃ t, S.get_parse_tree 0 = some t) ∧
    (∀ (S : sentence) (t : parse_tree) (k : Int),
       (S.set_parse_tree t k).is_parsed = (decide (k = 0) || S.is_parsed)) ∧
    (∀ S : sentence, S.is_dep_parsed = true ↔ ∃ t, S.get_dep_tree 0 = some t) ∧
    (∀ (S : sentence) (t : dep_tree) (k : Int),
       (S.set_dep_tree t k).is_dep_parsed = (decide (k = 0) || S.is_dep_parsed)) := by
  refine ⟨?_, ?_, ?_, ?_⟩
  · intro S
    simp [sentence.is_parsed, sentence.get_parse_tree, Option.isSome_iff_exists]
  · intro S t k
    by_cases hk : k = 0
    · subst hk
      simp [sentence.is_parsed, sentence.set_parse_tree, mlookup_mset_self]
    · simp [sentence.is_parsed, sentence.set_parse_tree, hk,
        mlookup_mset_ne S.pts k 0 t (fun e => hk e.symm)]
  · intro S
    simp [sentence.is_dep_parsed, sentence.get_dep_tree, Option.isSome_iff_exists]
  · intro S t k
    by_cases hk : k = 0
    · subst hk
      simp [sentence.is_dep_parsed, sentence.set_dep_tree, mlookup_mset_self]
    · simp [sentence.is_dep_parsed, sentence.set_dep_tree, hk,
        mlookup_mset_ne S.dts k 0 t (fun e => hk e.symm)]

/-! ### C6: absent lookups surface an explicit absent result -/

/-- C6: every tree lookup with an absent id or word position
(`parse_tree::get_node_by_id`, `parse_tree::get_node_by_pos`,
`dep_tree::get_node_by_pos`) returns an explicit `none`, and get/clear of
the processing-status stack on an empty stack return `none` / leave the
sentence unchanged — never a crash. -/
theorem absent_lookup_spec :
    (∀ (pt : parse_tree) (id : String), (∀ p ∈ pt.node_index, p.1 ≠ id) →
       pt.get_node_by_id id = none) ∧
    (∀ (pt : parse_tree) (pos : Nat), (∀ p ∈ pt.word_index, p.1 ≠ pos) →
       pt.get_node_by_pos pos = none) ∧
    (∀ (dt : dep_tree) (pos : Nat), (∀ p ∈ dt.word_index, p.1 ≠ pos) →
       dt.get_node_by_pos pos = none) ∧
    (∀ S : sentence, S.status = [] →
       S.get_processing_status = none ∧ S.clear_processing_status = S) := by
  refine ⟨?_, ?_, ?_, ?_⟩
  · intro pt id h
    exact mlookup_eq_none pt.node_index id h
  · intro pt pos h
    exact mlookup_eq_none pt.word_index pos h
  · intro dt pos h
    exact mlookup_eq_none dt.word_index pos h
  · intro S h
    cases S
    simp_all [sentence.get_processing_status, sentence.clear_processing_status]

theorem absent_lookup_spec_witness :
    pt0.get_node_by_id "y" = none ∧
    pt0.get_node_by_pos 3 = none ∧
    dt0.get_node_by_pos 3 = none ∧
    S0.get_processing_status = none ∧ S0.clear_processing_status = S0 :=
  ⟨absent_lookup_spec.1 pt0 "y" (by simp [pt0]),
   absent_lookup_spec.2.1 pt0 3 (by simp [pt0]),
   absent_lookup_spec.2.2.1 dt0 3 (by simp [dt0]),
   (absent_lookup_spec.2.2.2 S0 rfl).1,
   (absent_lookup_spec.2.2.2 S0 rfl).2⟩

/-! ### C1: rebuild_word_index renumbers positions 0..n-1 -/

theorem set_positions_length (l : List word) (n : Nat) :
    (set_positions l n).length = l.length := by
  induction l generalizing n with
  | nil => rfl
  | cons w r ih => simp [set_positions, ih]

theorem set_positions_get (l : List word) (n j : Nat)
    (h : j < (set_positions l n).length) :
    ((set_positions l n).get ⟨j, h⟩).get_position = n + j := by
  induction l generalizing n j with
  | nil => simp [set_positions] at h
  | cons w r ih =>
    cases j with
    | zero =>
      cases w
      simp [set_positions, word.set_position, word.get_position]
    | succ j =>
      have h2 : j < (set_positions r (n + 1)).length := by
        simpa [set_positions] using h
      have heq : (set_positions (w :: r) n).get ⟨j + 1, h⟩
          = (set_positions r (n + 1)).get ⟨j, h2⟩ := rfl
      rw [heq, ih (n + 1) j h2]
      omega

/-- C1: for every Sentence, after `rebuild_word_index()` the Token at index
i of the iteration order satisfies `get_position() == i`, for every i in
[0, len). -/
theorem rebuild_word_index_positions (S : sentence) (i : Nat)
    (h : i < S.rebuild_word_index.words.length) :
    (S.rebuild_word_index.words.get ⟨i, h⟩).get_position = i := by
  have := set_positions_get S.words 0 i (by simpa [sentence.rebuild_word_index] using h)
  simpa [sentence.rebuild_word_index] using this

theorem rebuild_word_index_positions_witness :
    (S1.rebuild_word_index.words.get
      ⟨1, (by simp [S1, sentence.rebuild_word_index, set_positions] :
            1 < S1.rebuild_word_index.words.length)⟩).get_position = 1 :=
  rebuild_word_index_positions S1 1 _

/-! ### C8: reading equality and ordering -/

/-- C8: for every pair of Readings, `operator==` holds iff they agree on
lemma, tag and probability (senses and retokenization excluded from the
comparison), and `operator>` holds iff the left probability is greater
(ordering by decreasing probability). -/
theorem analysis_eq_order_spec (a b : analysis) :
    (analysis.eqv a b = true ↔
       (a.get_lemma = b.get_lemma ∧ a.get_tag = b.get_tag ∧
        a.get_prob = b.get_prob)) ∧
    (analysis.gtv a b = true ↔ b.get_prob < a.get_prob) := by
  constructor <;> simp [analysis.eqv, analysis.gtv, and_assoc]

/-! ### C2: add_positive places both nodes in one common group -/

/-- C2: `add_positive(n1, n2)` places both node ids in one common group —
fresh id if neither was grouped, the one existing id if exactly one was,
and a merge (keeping one id, reassigning the other group's members) if both
were in different groups; consequently, after `add_positive(a,b)` then
`add_positive(b,c)` on a document with no prior memberships of a, b, c,
`is_coref(a,c)` is true and `get_coref_nodes(get_coref_group(a))` is
exactly {a,b,c}. -/
theorem add_positive_spec (d : document) (hwf : d.Wf) :
    (∀ n1 n2 : String, mlookup d.node2group n1 = none →
       mlookup d.node2group n2 = none → n1 ≠ n2 →
       (d.add_positive n1 n2).get_coref_group n1 = some (d.last_group + 1) ∧
       (d.add_positive n1 n2).get_coref_group n2 = some (d.last_group + 1) ∧
       (∀ n g, mlookup d.node2group n = some g → g ≠ d.last_group + 1)) ∧
    (∀ n1 n2 g, mlookup d.node2group n1 = some g →
       mlookup d.node2group n2 = none →
       (d.add_positive n1 n2).get_coref_group n1 = some g ∧
       (d.add_positive n1 n2).get_coref_group n2 = some g) ∧
    (∀ n1 n2 g, mlookup d.node2group n1 = none →
       mlookup d.node2group n2 = some g →
       (d.add_positive n1 n2).get_coref_group n1 = some g ∧
       (d.add_positive n1 n2).get_coref_group n2 = some g) ∧
    (∀ n1 n2 g1 g2, mlookup d.node2group n1 = some g1 →
       mlookup d.node2group n2 = some g2 → g1 ≠ g2 →
       (∀ n g, mlookup d.node2group n = some g →
          (d.add_positive n1 n2).get_coref_group n
            = some (if g = g2 then g1 else g)) ∧
       (d.add_positive n1 n2).get_coref_group n1 = some g1 ∧
       (d.add_positive n1 n2).get_coref_group n2 = some g1) ∧
    (∀ a b c : String, mlookup d.node2group a = none →
       mlookup d.node2group b = none → mlookup d.node2group c = none →
       a ≠ b → a ≠ c → b ≠ c →
       ((d.add_positive a b).add_positive b c).is_coref a c = true ∧
       ((d.add_positive a b).add_positive b c).get_coref_group a
         = some (d.last_group + 1) ∧
       ((d.add_positive a b).add_positive b c).get_coref_nodes
         (d.last_group + 1) = [a, b, c]) := by
  refine ⟨?_, ?_, ?_, ?_, ?_⟩
  · intro n1 n2 h1 h2 hne
    refine ⟨?_, ?_, ?_⟩
    · simp only [document.add_positive, h1, h2, document.get_coref_group]
      rw [mlookup_mset_ne _ _ _ _ hne, mlookup_mset_self]
    · simp only [document.add_positive, h1, h2, document.get_coref_group]
      rw [mlookup_mset_self]
    · intro n g hg
      have := hwf (n, g) (mlookup_mem _ _ _ hg)
      simp only at this
      omega
  · intro n1 n2 g h1 h2
    have hne : n1 ≠ n2 := by
      intro e
      rw [e, h2] at h1
      cases h1
    simp only [document.add_positive, h1, h2, document.get_coref_group]
    constructor
    · rw [mlookup_mset_ne _ _ _ _ hne, h1]
    · rw [mlookup_mset_self]
  · intro n1 n2 g h1 h2
    have hne : n2 ≠ n1 := by
      intro e
      rw [e, h1] at h2
      cases h2
    simp only [document.add_positive, h1, h2, document.get_coref_group]
    constructor
    · rw [mlookup_mset_self]
    · rw [mlookup_mset_ne _ _ _ _ hne, h2]
  · intro n1 n2 g1 g2 h1 h2 hne
    refine ⟨?_, ?_, ?_⟩
    · intro n g hg
      simp only [document.add_positive, h1, h2, if_neg hne, document.get_coref_group]
      rw [mlookup_map_reassign, hg]
      rfl
    · simp only [document.add_positive, h1, h2, if_neg hne, document.get_coref_group]
      rw [mlookup_map_reassign, h1]
      simp
    · simp only [document.add_positive, h1, h2, if_neg hne, document.get_coref_group]
      rw [mlookup_map_reassign, h2]
      simp
  · intro a b c ha hb hc hab hac hbc
    have hba : ¬ b = a := fun e => hab e.symm
    have hca : ¬ c = a := fun e => hac e.symm
    have hcb : ¬ c = b := fun e => hbc e.symm
    set g := d.last_group + 1 with hgdef
    set m := d.node2group with hmdef
    have hm1 : mset (mset m a g) b g = m ++ [(a, g), (b, g)] := by
      rw [mset_absent m a g ha]
      have hlab : mlookup (m ++ [(a, g)]) b = none := by
        rw [mlookup_append, hb]
        simp [mlookup, hba]
      rw [mset_absent _ b g hlab]
      simp
    have hd1 : d.add_positive a b
        = ⟨m ++ [(a, g), (b, g)], g⟩ := by
      simp only [document.add_positive, ← hmdef, ha, hb, ← hgdef, hm1]
    have hlb : mlookup (m ++ [(a, g), (b, g)]) b = some g := by
      rw [mlookup_append, hb]
      simp [mlookup, hba]
    have hlc : mlookup (m ++ [(a, g), (b, g)]) c = none := by
      rw [mlookup_append, hc]
      simp [mlookup, hca, hcb]
    have hm2 : mset (m ++ [(a, g), (b, g)]) c g
        = m ++ [(a, g), (b, g), (c, g)] := by
      rw [mset_absent _ c g hlc]
      simp
    have hd2 : (d.add_positive a b).add_positive b c
        = ⟨m ++ [(a, g), (b, g), (c, g)], g⟩ := by
      rw [hd1]
      simp only [document.add_positive, hlb, hlc, hm2]
    have hla : mlookup (m ++ [(a, g), (b, g), (c, g)]) a = some g := by
      rw [mlookup_append, ha]
      simp [mlookup]
    have hlc2 : mlookup (m ++ [(a, g), (b, g), (c, g)]) c = some g := by
      rw [mlookup_append, hc]
      simp [mlookup, hca, hcb]
    refine ⟨?_, ?_, ?_⟩
    · simp only [document.is_coref, hd2, hla, hlc2]
      simp
    · simp only [document.get_coref_group, hd2, hla]
    · simp only [document.get_coref_nodes, hd2]
      have hfilt : (m ++ [(a, g), (b, g), (c, g)]).filter (fun p => p.2 = g)
          = [(a, g), (b, g), (c, g)] := by
        rw [List.filter_append]
        have hnil : m.filter (fun p => p.2 = g) = [] := by
          rw [List.filter_eq_nil_iff]
          intro p hp
          have hle := hwf p hp
          simp only [decide_eq_true_eq]
          rw [hgdef]
          omega
        rw [hnil]
        simp
      rw [hfilt]
      simp

theorem add_positive_spec_witness :
    ((d0.add_positive "a" "b").add_positive "b" "c").is_coref "a" "c" = true ∧
    ((d0.add_positive "a" "b").add_positive "b" "c").get_coref_group "a"
      = some 1 ∧
    ((d0.add_positive "a" "b").add_positive "b" "c").get_coref_nodes 1
      = ["a", "b", "c"] := by
  have h := (add_positive_spec d0 (by simp [document.Wf, d0])).2.2.2.2
    "a" "b" "c" rfl rfl rfl (by decide) (by decide) (by decide)
  simpa [d0] using h

/-! ### C5: build_node_index assigns unique resolvable identifiers -/

theorem decStr_ne_empty (m : Nat) : decStr m ≠ "" := by
  unfold decStr
  by_cases h : m = 0
  · simp [h]
  · rw [if_neg h]
    intro he
    have hd : ((Nat.digits 10 m).reverse.map Nat.digitChar) = [] :=
      congrArg String.data he
    simp at hd
    exact h (Nat.digits_eq_nil_iff_eq_zero.mp hd)

theorem digitChar_inj_lt (a b : Nat) (ha : a < 10) (hb : b < 10)
    (h : Nat.digitChar a = Nat.digitChar b) : a = b := by
  interval_cases a <;> interval_cases b <;> revert h <;> decide

theorem map_digitChar_inj (l1 : List Nat) : ∀ l2 : List Nat,
    (∀ x ∈ l1, x < 10) → (∀ x ∈ l2, x < 10) →
    l1.map Nat.digitChar = l2.map Nat.digitChar → l1 = l2 := by
  induction l1 with
  | nil =>
    intro l2 _ _ h
    cases l2 with
    | nil => rfl
    | cons y s => simp at h
  | cons x r ih =>
    intro l2 h1 h2 h
    cases l2 with
    | nil => simp at h
    | cons y s =>
      simp only [List.map_cons, List.cons.injEq] at h
      have hx := digitChar_inj_lt x y (h1 x (by simp)) (h2 y (by simp)) h.1
      rw [hx, ih s (fun z hz => h1 z (List.mem_cons_of_mem _ hz))
        (fun z hz => h2 z (List.mem_cons_of_mem _ hz)) h.2]

theorem digits_rev_map_inj (m n : Nat)
    (h : ((Nat.digits 10 m).reverse.map Nat.digitChar)
       = ((Nat.digits 10 n).reverse.map Nat.digitChar)) : m = n := by
  have h2 := map_digitChar_inj _ _
    (fun x hx => Nat.digits_lt_base (by norm_num) (List.mem_reverse.mp hx))
    (fun x hx => Nat.digits_lt_base (by norm_num) (List.mem_reverse.mp hx)) h
  have h3 : Nat.digits 10 m = Nat.digits 10 n := by
    have := congrArg List.reverse h2
    simpa using this
  have h4 := congrArg (Nat.ofDigits 10) h3
  rwa [Nat.ofDigits_digits, Nat.ofDigits_digits] at h4

theorem rev_map_eq_zerochar {n : Nat}
    (h : (Nat.digits 10 n).reverse.map Nat.digitChar = [Char.ofNat 48]) :
    n = 0 := by
  have h2 : (Nat.digits 10 n).reverse = [0] := by
    cases hrev : (Nat.digits 10 n).reverse with
    | nil => rw [hrev] at h; simp at h
    | cons d ds =>
      rw [hrev] at h
      simp only [List.map_cons, List.cons.injEq] at h
      have hmem : d ∈ Nat.digits 10 n := List.mem_reverse.mp (by rw [hrev]; simp)
      have hd10 : d < 10 := Nat.digits_lt_base (by norm_num) hmem
      have hd0 : d = 0 := digitChar_inj_lt d 0 hd10 (by norm_num)
        (by rw [h.1]; rfl)
      have hds : ds = [] := by simpa using h.2
      rw [hd0, hds]
  have h3 : Nat.digits 10 n = [0] := by
    have := congrArg List.reverse h2
    simpa using this
  have h4 := congrArg (Nat.ofDigits 10) h3
  rw [Nat.ofDigits_digits] at h4
  simpa [Nat.ofDigits] using h4

theorem decStr_inj (m n : Nat) (h : decStr m = decStr n) : m = n := by
  unfold decStr at h
  by_cases hm : m = 0 <;> by_cases hn : n = 0
  · rw [hm, hn]
  · rw [if_pos hm, if_neg hn] at h
    have hd : [Char.ofNat 48] = (Nat.digits 10 n).reverse.map Nat.digitChar :=
      congrArg String.data h
    exact absurd (rev_map_eq_zerochar hd.symm) hn
  · rw [if_neg hm, if_pos hn] at h
    have hd : [Char.ofNat 48] = (Nat.digits 10 m).reverse.map Nat.digitChar :=
      congrArg String.data h.symm
    exact absurd (rev_map_eq_zerochar hd.symm) hm
  · rw [if_neg hm, if_neg hn] at h
    exact digits_rev_map_inj m n (congrArg String.data h)

theorem pref_decStr_inj (pref : String) :
    Function.Injective (fun m => pref ++ decStr m) := by
  intro m n h
  simp only at h
  have hd := congrArg String.data h
  rw [String.data_append, String.data_append] at hd
  exact decStr_inj m n (String.ext (List.append_cancel_left hd))

theorem pref_decStr_ne_empty (pref : String) (m : Nat) :
    pref ++ decStr m ≠ "" := by
  intro h
  have hd := congrArg String.data h
  rw [String.data_append] at hd
  exact decStr_ne_empty m (String.ext (List.append_eq_nil.mp hd).2)

mutual

theorem assignT_ids (pref : String) (t : ptree) (n : Nat)
    (h : ∀ nd ∈ nodesT t, nd.nodeid = "") :
    (nodesT (assignT pref t n).1).map node.nodeid
        = (List.range' n (nodesT t).length).map (fun m => pref ++ decStr m)
    ∧ (assignT pref t n).2 = n + (nodesT t).length := by
  cases t with
  | mk info ch =>
    have hinfo : info.nodeid = "" := h info (by simp [nodesT])
    have hch := assignF_ids pref ch (n + 1)
      (fun nd hm => h nd (by simp [nodesT]; exact Or.inr hm))
    have hlen : (nodesT (ptree.mk info ch)).length = (nodesF ch).length + 1 := by
      simp [nodesT]
    constructor
    · rw [hlen, List.range'_succ]
      simp [assignT, hinfo, nodesT, hch.1]
    · simp [assignT, hinfo, nodesT, hch.2]
      omega

theorem assignF_ids (pref : String) (f : pforest) (n : Nat)
    (h : ∀ nd ∈ nodesF f, nd.nodeid = "") :
    (nodesF (assignF pref f n).1).map node.nodeid
        = (List.range' n (nodesF f).length).map (fun m => pref ++ decStr m)
    ∧ (assignF pref f n).2 = n + (nodesF f).length := by
  cases f with
  | nil => simp [assignF, nodesF]
  | cons t f =>
    have h1 := assignT_ids pref t n
      (fun nd hm => h nd (by simp [nodesF]; exact Or.inl hm))
    have h2 := assignF_ids pref f ((assignT pref t n).2)
      (fun nd hm => h nd (by simp [nodesF]; exact Or.inr hm))
    have hrange : List.range' n (nodesT t).length
          ++ List.range' (n + (nodesT t).length) (nodesF f).length
        = List.range' n ((nodesT t).length + (nodesF f).length) := by
      have hap := List.range'_append n (nodesT t).length (nodesF f).length 1
      rw [Nat.one_mul] at hap
      rw [hap, Nat.add_comm]
    constructor
    · simp only [assignF, nodesF, List.map_append, List.length_append]
      rw [h1.1, h2.1, h1.2, ← List.map_append, hrange]
    · simp only [assignF, nodesF, List.length_append]
      rw [h2.2, h1.2]
      omega

end

theorem mlookup_map_self (l : List node) (hnd : (l.map node.nodeid).Nodup) :
    ∀ nd ∈ l, mlookup (l.map (fun x => (x.nodeid, x))) nd.nodeid = some nd := by
  induction l with
  | nil =>
    intro nd hm
    simp at hm
  | cons y r ih =>
    intro nd hm
    simp only [List.map_cons, List.nodup_cons] at hnd
    rcases List.mem_cons.mp hm with he | hr
    · subst he
      simp [mlookup]
    · have hne : ¬ nd.nodeid = y.nodeid := by
        intro e
        apply hnd.1
        rw [← e]
        exact List.mem_map_of_mem node.nodeid hr
      simp only [List.map_cons, mlookup, if_neg hne]
      exact ih hnd.2 nd hr

/-- C5: for every Constituency tree whose nodes start without identifiers
(as produced by a parser), after `build_node_index(pref)` every node
carries a (nonempty) id, all node ids in the tree are pairwise distinct,
and `get_node_by_id` resolves each id to the node that carries it. -/
theorem build_node_index_spec (pt : parse_tree) (pref : String)
    (h : ∀ nd ∈ nodesT pt.root, nd.nodeid = "") :
    ((nodesT (pt.build_node_index pref).root).map node.nodeid).Nodup ∧
    ∀ nd ∈ nodesT (pt.build_node_index pref).root,
      nd.nodeid ≠ "" ∧ (pt.build_node_index pref).get_node_by_id nd.nodeid = some nd := by
  have hids := (assignT_ids pref pt.root 0 h).1
  have hroot : (pt.build_node_index pref).root = (assignT pref pt.root 0).1 := rfl
  have hnd : ((nodesT (pt.build_node_index pref).root).map node.nodeid).Nodup := by
    rw [hroot, hids]
    exact (List.nodup_range' 0 _).map (pref_decStr_inj pref)
  refine ⟨hnd, ?_⟩
  intro nd hm
  constructor
  · have hin : nd.nodeid ∈ (nodesT (pt.build_node_index pref).root).map node.nodeid :=
      List.mem_map_of_mem _ hm
    rw [hroot, hids] at hin
    rcases List.mem_map.mp hin with ⟨m, _, he⟩
    rw [← he]
    exact pref_decStr_ne_empty pref m
  · have hindex : (pt.build_node_index pref).node_index
        = (nodesT (pt.build_node_index pref).root).map (fun x => (x.nodeid, x)) := rfl
    unfold parse_tree.get_node_by_id
    rw [hindex]
    exact mlookup_map_self _ hnd nd hm

theorem build_node_index_spec_witness :
    ((nodesT (pt1.build_node_index "N").root).map node.nodeid).Nodup ∧
    (pt1.build_node_index "N").get_node_by_id "N0"
      = some ⟨"N0", "S", false, 0, none⟩ := by
  have happ := build_node_index_spec pt1 "N"
    (by simp [pt1, nd0, nodesT, nodesF])
  have hm : (⟨"N0", "S", false, 0, none⟩ : node)
      ∈ nodesT (pt1.build_node_index "N").root := by
    simp [pt1, nd0, parse_tree.build_node_index, assignT, assignF,
      nodesT, nodesF, decStr]
  have h2 := (happ.2 _ hm).2
  exact ⟨happ.1, h2⟩

end freeling
